import Mathlib

/-!
Verification development for the CARLA-to-nuScenes dataset assembly tools
(`tools/shift_carla.py`, `tools/create_carla_train_infos.py`,
`tools/viz_nusc_like.py`).

Shallow embedding conventions:
* 32-bit / 64-bit floating point values are modelled as exact rationals `ℚ`;
* the on-disk store of raw point files is an association list from full path
  strings to their flat float contents;
* per-record JSON state (tables, marker files, version directory) is a
  `RecordState`; Python exceptions are `Except` values that carry the
  filesystem state present when the exception escaped;
* file paths are plain strings joined with `"/"` (POSIX).
-/

/-- Characters of `s`, used to define Python-style string operations. -/
def strChars (s : String) : List Char := s.data

/-- Python `s.startswith(pre)`. -/
def strStartsWith (s pre : String) : Bool := pre.data.isPrefixOf s.data

/-- Python `s.endswith(suf)`. -/
def strEndsWith (s suf : String) : Bool := suf.data.isSuffixOf s.data

/-- Python `sub in hay` on char lists: some position of `hay` starts with `sub`. -/
def containsSub (hay sub : List Char) : Bool :=
  match hay with
  | [] => sub.isEmpty
  | _ :: t => sub.isPrefixOf hay || containsSub t sub

/-- Python `sub in s` for strings. -/
def strContains (s sub : String) : Bool := containsSub s.data sub.data

/-- Python `s.lower()` (ASCII filenames only appear in this corpus). -/
def strLower (s : String) : String := String.mk (s.data.map Char.toLower)

/-- `os.path.basename`: the final `/`-separated component. -/
def basename (s : String) : String :=
  String.mk ((s.data.reverse.takeWhile (fun c => c ≠ '/')).reverse)

/-- `norm_rel_path` from `tools/shift_carla.py`: replace each backslash by a
forward slash, then strip every leading slash (`str.replace` + `str.lstrip`). -/
def norm_rel_path (s : String) : String :=
  String.mk ((s.data.map (fun c => if c = '\\' then '/' else c)).dropWhile (fun c => c = '/'))

/-- CLI arguments of the Spatial Corrector that influence its semantics.
`version_dir` and `lidar_channel` only select which files the record-state
booleans below talk about, so they are folded into `RecordState`. -/
structure Args where
  delta_z : ℚ
  point_dim : ℕ
  force : Bool
  dry_run : Bool
deriving DecidableEq

/-- One row of `sample_data.json`; `filename` is `sd.get("filename", "")`
(a missing key is the empty string, as in the source). -/
structure SampleDataRow where
  filename : String
deriving DecidableEq

/-- One row of `sample_annotation.json`. `translation` is `none` when the key
is missing and `some l` when it is a JSON list of numbers; only the shape of
the list matters to the corrector. -/
structure Ann where
  translation : Option (List ℚ)
deriving DecidableEq

/-- Persisted per-record state seen by the Spatial Corrector: the record's
directory path, the marker files present in it, whether the version directory
and the two table files exist, and the parsed contents of the two tables. -/
structure RecordState where
  rdir : String
  markers : List String
  hasVersionDir : Bool
  hasSampleData : Bool
  hasSampleAnn : Bool
  sampleData : List SampleDataRow
  anns : List Ann
deriving DecidableEq

/-- Error taxonomy of the corrector (spec names; the source raises
`ValueError` for the first and `FileNotFoundError` for the second). -/
inductive Err where
  | malformedPointFile (path : String)
  | pathResolution (filename : String)
  | missingFile (path : String)
deriving DecidableEq

/-- Per-record observable counters and flags printed by the corrector
(`rec_bins`, `rec_points`, `ann_count`, whether the record was skipped before
processing, and whether the no-lidar-rows warning fired). -/
structure RecCounts where
  files : ℕ
  points : ℕ
  annCount : ℕ
  skipped : Bool
  warnedNoLidar : Bool
deriving DecidableEq

/-- Run-level totals (`total_bins`, `total_points`, `total_ann`). -/
structure Totals where
  files : ℕ
  points : ℕ
  annCount : ℕ
deriving DecidableEq

deriving instance DecidableEq for Except

/-- The store of raw point files: full path to flat float32 contents. -/
abbrev Bins := List (String × List ℚ)

/-- Read the file at `p` (`np.fromfile`); `none` when no such file exists. -/
def lookupBin : Bins → String → Option (List ℚ)
  | [], _ => none
  | (q, v) :: rest, p => if p = q then some v else lookupBin rest p

/-- Overwrite the file at `p` (`tofile` on an existing path). -/
def setBin : Bins → String → List ℚ → Bins
  | [], _, _ => []
  | (q, v) :: rest, p, w => if p = q then (q, w) :: rest else (q, v) :: setBin rest p w

/-- The set of existing file paths. -/
def binKeys (bins : Bins) : List String := bins.map Prod.fst

/-- `os.path.isfile` restricted to the point-file store. -/
def isfile (bins : Bins) (p : String) : Bool := (lookupBin bins p).isSome

/-- The last-resort recursive basename search
`glob.glob(os.path.join(rec, "**", base), recursive=True)`: the existing
files under the record directory whose final component equals the final
component of `fn`. -/
def basenameHits (bins : Bins) (rdir fn : String) : List String :=
  (binKeys bins).filter
    (fun p => strStartsWith p (rdir ++ "/") && (basename p == basename fn))

/-- Path resolution for one lidar file reference (`main`, lines 110-128 of
`tools/shift_carla.py`): try the record-root-relative candidate, then the
corpus-root-relative candidate, then the recursive basename search scoped to
the record; exactly one basename hit resolves, otherwise `FileNotFoundError`. -/
def resolveBin (bins : Bins) (root rdir fn : String) : Except Err String :=
  let c1 := rdir ++ "/" ++ fn
  let c2 := root ++ "/" ++ fn
  if isfile bins c1 then .ok c1
  else if isfile bins c2 then .ok c2
  else
    match basenameHits bins rdir fn with
    | [p] => .ok p
    | _ => .error (.pathResolution fn)

/-- `pts = arr.reshape(-1, dim); pts[:, 2] += dz` flattened back row-major:
the element at flat index `k` belongs to column `k % dim`, so exactly the
elements with `k % dim = 2` gain `dz`. `k` is the flat index of the head. -/
def shiftedContent (dim : ℕ) (dz : ℚ) : ℕ → List ℚ → List ℚ
  | _, [] => []
  | k, v :: rest => (if k % dim = 2 then v + dz else v) :: shiftedContent dim dz (k + 1) rest

/-- `shift_bin_inplace` from `tools/shift_carla.py`: read the raw buffer at
`p`, fail when its element count is not divisible by `dim`, otherwise add `dz`
to every third-column element, rewrite the file in place, and return the
number of points. -/
def shift_bin_inplace (bins : Bins) (p : String) (dim : ℕ) (dz : ℚ) :
    Except Err (Bins × ℕ) :=
  match lookupBin bins p with
  | none => .error (.missingFile p)
  | some arr =>
    if arr.length % dim ≠ 0 then .error (.malformedPointFile p)
    else .ok (setBin bins p (shiftedContent dim dz 0 arr), arr.length / dim)

/-- `f"{x:+.3f}"`: sign of `x`, then `|x|` rounded to three decimals
(`n` is `round(|x| * 1000)` computed on the numerator/denominator; Python
rounds the binary double half-to-even, which agrees except on exact
half-thousandth ties that binary doubles cannot represent anyway). -/
def fmtSigned3 (x : ℚ) : String :=
  let a : ℚ := if x < 0 then -x else x
  let n : ℕ := (2 * a.num.toNat * 1000 + a.den) / (2 * a.den)
  let fstr := toString (n % 1000)
  (if x < 0 then "-" else "+") ++ toString (n / 1000) ++ "." ++
    String.mk (List.replicate (3 - fstr.length) '0') ++ fstr

/-- Marker filename `f".zshifted_{delta_z:+.3f}"` (`main`, line 59). -/
def markerName (dz : ℚ) : String := ".zshifted_" ++ fmtSigned3 dz

/-- `is_lidar_row` from `tools/shift_carla.py` (lines 83-91), on the row's
`filename` value lowered. -/
def is_lidar_row (filename : String) : Bool :=
  let fn := strLower filename
  strStartsWith fn "samples/lidar_top/" || strStartsWith fn "sweeps/lidar_top/" ||
    (strContains fn "/lidar_" && strEndsWith fn ".bin") ||
    (strContains fn "lidar" && strEndsWith fn ".bin")

/-- `lidar_entries = [x for x in sample_data if is_lidar_row(x)]`. -/
def lidarEntriesOf (r : RecordState) : List SampleDataRow :=
  r.sampleData.filter (fun sd => is_lidar_row sd.filename)

/-- The annotation-shift step for one row (lines 141-147): when `translation`
is a well-formed 3-element list, add `delta_z` to its third component;
otherwise leave the row untouched. -/
def shiftAnn (dz : ℚ) (a : Ann) : Ann :=
  match a.translation with
  | some [x, y, z] => ⟨some [x, y, z + dz]⟩
  | _ => a

/-- Whether a row's translation is a well-formed 3-element list
(`isinstance(tr, list) and len(tr) == 3`). -/
def wfTrans (a : Ann) : Bool :=
  match a.translation with
  | some [_, _, _] => true
  | _ => false

/-- The paths that the record's entries resolve to against `bins` (entries
with an empty filename are skipped by the loop and resolve to nothing). -/
def pathsOf (root rdir : String) (bins : Bins) (entries : List SampleDataRow) : List String :=
  entries.filterMap (fun sd =>
    if sd.filename = "" then none
    else (resolveBin bins root rdir (norm_rel_path sd.filename)).toOption)

/-- The number of identified rows the loop does not `continue` past
(those with a non-empty filename). -/
def countNonEmptyRows (es : List SampleDataRow) : ℕ :=
  (es.filter (fun sd => !(sd.filename == ""))).length

/-- The body of the per-entry loop (lines 102-136): skip empty filenames,
normalize and resolve the reference, then either count it (dry run) or shift
the file in place. Returns the new store and the `rec_bins` / `rec_points`
increments. -/
def processEntry (args : Args) (root rdir : String) (bins : Bins) (sd : SampleDataRow) :
    Except Err (Bins × ℕ × ℕ) :=
  if sd.filename = "" then .ok (bins, 0, 0)
  else
    match resolveBin bins root rdir (norm_rel_path sd.filename) with
    | .error e => .error e
    | .ok p =>
      if args.dry_run then .ok (bins, 1, 0)
      else
        match shift_bin_inplace bins p args.point_dim args.delta_z with
        | .error e => .error e
        | .ok (bins', npts) => .ok (bins', 1, npts)

/-- The per-record lidar loop: fold `processEntry` over the identified
entries, threading the store and the counters. An escaping exception carries
the store as it was when the failing operation was entered. -/
def shiftLoop (args : Args) (root rdir : String) :
    Bins → List SampleDataRow → ℕ × ℕ → Except (Err × Bins) (Bins × ℕ × ℕ)
  | bins, [], (nb, np) => .ok (bins, nb, np)
  | bins, sd :: rest, (nb, np) =>
    match processEntry args root rdir bins sd with
    | .error e => .error (e, bins)
    | .ok (bins', db, dp) => shiftLoop args root rdir bins' rest (nb + db, np + dp)

/-- Counts reported for a record that is skipped before processing. -/
def skipCounts : RecCounts := ⟨0, 0, 0, true, false⟩

/-- Processing of one record by `main` (lines 58-162): skip when the marker
for this offset exists and `--force` is absent; skip (with a warning) when the
version directory or either table file is missing; otherwise shift the
identified lidar files, then (unless dry-running) shift every well-formed
annotation translation, save the annotation table, and write the marker. -/
def processRecord (args : Args) (root : String) (bins : Bins) (r : RecordState) :
    Except (Err × Bins) (Bins × RecordState × RecCounts) :=
  if markerName args.delta_z ∈ r.markers ∧ args.force = false then
    .ok (bins, r, skipCounts)
  else if r.hasVersionDir = false then .ok (bins, r, skipCounts)
  else if r.hasSampleData = false then .ok (bins, r, skipCounts)
  else if r.hasSampleAnn = false then .ok (bins, r, skipCounts)
  else
    let les := lidarEntriesOf r
    match shiftLoop args root r.rdir bins les (0, 0) with
    | .error (e, b') => .error (e, b')
    | .ok (b', nb, np) =>
      let annCount := (r.anns.filter wfTrans).length
      if args.dry_run then
        .ok (b', r, ⟨nb, np, annCount, false, les.isEmpty⟩)
      else
        .ok (b',
          ⟨r.rdir, markerName args.delta_z :: r.markers, r.hasVersionDir,
            r.hasSampleData, r.hasSampleAnn, r.sampleData,
            r.anns.map (shiftAnn args.delta_z)⟩,
          ⟨nb, np, annCount, false, les.isEmpty⟩)

/-- Add a record's counters into the run totals. -/
def addTotals (c : RecCounts) (t : Totals) : Totals :=
  ⟨c.files + t.files, c.points + t.points, c.annCount + t.annCount⟩

/-- The whole-run loop of `main`: records strictly in sequence; an escaping
exception aborts the run, leaving the store and the untouched records as they
were at that moment. -/
def runAll (args : Args) (root : String) :
    Bins → List RecordState →
    Except (Err × Bins × List RecordState) (Bins × List RecordState × Totals)
  | bins, [] => .ok (bins, [], ⟨0, 0, 0⟩)
  | bins, r :: rest =>
    match processRecord args root bins r with
    | .error (e, b') => .error (e, b', r :: rest)
    | .ok (b', r', c) =>
      match runAll args root b' rest with
      | .error (e, b'', rest') => .error (e, b'', r' :: rest')
      | .ok (b'', rest', t) => .ok (b'', r' :: rest', addTotals c t)

/-- The on-disk state (store and record list) after a run, whether or not an
exception escaped. -/
def stateOfRun
    (x : Except (Err × Bins × List RecordState) (Bins × List RecordState × Totals)) :
    Bins × List RecordState :=
  match x with
  | .ok (b, rs, _) => (b, rs)
  | .error (_, b, rs) => (b, rs)

/-! ## Info Aggregator and Path-Namespace Rewriter
(`tools/create_carla_train_infos.py`) -/

/-- One aggregated sample descriptor; only `lidar_path` is rewritten, the
remaining fields travel unchanged as an opaque payload. -/
structure Info where
  lidar_path : String
  payload : ℕ
deriving DecidableEq

/-- `str(Path("carla") / "nusc_like_multi" / rec.name / lidar_path)` on POSIX:
`pathlib` joins with `/`; a right operand that is itself rooted (leading `/`)
replaces the left operand entirely. No separator normalization and no root
stripping happens here. -/
def rewrite_lidar_path (recName p : String) : String :=
  if strStartsWith p "/" then p
  else "carla/nusc_like_multi/" ++ recName ++ "/" ++ p

/-- Rewrite one descriptor's `lidar_path` (lines 45-47). -/
def rewriteInfo (recName : String) (i : Info) : Info :=
  ⟨rewrite_lidar_path recName i.lidar_path, i.payload⟩

/-- `sorted([p for p in carla_root.iterdir() if ... p.name.startswith("record_")])`:
the discovery order of `iterdir` is OS-dependent, so it is an arbitrary input
list here; the aggregator keeps the `record_*` names and sorts them
(same-parent `Path` ordering is lexicographic on the final name). -/
def discoverRecords (dirs : List String) : List String :=
  List.insertionSort (fun a b => a ≤ b) (dirs.filter (fun p => strStartsWith p "record_"))

/-- The aggregation loop (lines 38-51): per record in sorted order, build its
infos, rewrite each `lidar_path` under the record's namespace segment, and
extend one ordered output collection. `env` maps a record name to the infos
`build_infos_for_one_record` produces for it (a fixed record-set). -/
def aggregate (env : String → List Info) (dirs : List String) : List Info :=
  ((discoverRecords dirs).map (fun rn => (env rn).map (rewriteInfo rn))).flatten

/-! ## Frame-Transform Engine (`tools/viz_nusc_like.py`) -/

/-- A translation vector. -/
structure Vec3 where
  x : ℚ
  y : ℚ
  z : ℚ
deriving DecidableEq

/-- A rotation quaternion in scalar-first (w, x, y, z) order. -/
structure Quat where
  w : ℚ
  x : ℚ
  y : ℚ
  z : ℚ
deriving DecidableEq

/-- A 3x3 matrix with explicitly named entries. -/
structure Mat3 where
  r00 : ℚ
  r01 : ℚ
  r02 : ℚ
  r10 : ℚ
  r11 : ℚ
  r12 : ℚ
  r20 : ℚ
  r21 : ℚ
  r22 : ℚ
deriving DecidableEq

/-- A 4x4 homogeneous transform with explicitly named entries. -/
structure Mat4 where
  m00 : ℚ
  m01 : ℚ
  m02 : ℚ
  m03 : ℚ
  m10 : ℚ
  m11 : ℚ
  m12 : ℚ
  m13 : ℚ
  m20 : ℚ
  m21 : ℚ
  m22 : ℚ
  m23 : ℚ
  m30 : ℚ
  m31 : ℚ
  m32 : ℚ
  m33 : ℚ
deriving DecidableEq

/-- `np.finfo(np.float64).eps`, the threshold `FLOAT_EPS` of `transforms3d`. -/
def floatEps : ℚ := 1 / 2 ^ 52

/-- `transforms3d.quaternions.quat2mat`, called by `quat_wxyz_to_R`: a
near-zero-norm quaternion yields the identity, otherwise the scaled
quaternion-to-rotation formula with `s = 2 / Nq`. -/
def quat2mat (q : Quat) : Mat3 :=
  let Nq := q.w * q.w + q.x * q.x + q.y * q.y + q.z * q.z
  if Nq < floatEps then ⟨1, 0, 0, 0, 1, 0, 0, 0, 1⟩
  else
    let s := 2 / Nq
    let X := q.x * s
    let Y := q.y * s
    let Z := q.z * s
    let wX := q.w * X
    let wY := q.w * Y
    let wZ := q.w * Z
    let xX := q.x * X
    let xY := q.x * Y
    let xZ := q.x * Z
    let yY := q.y * Y
    let yZ := q.y * Z
    let zZ := q.z * Z
    ⟨1 - (yY + zZ), xY - wZ, xZ + wY,
     xY + wZ, 1 - (xX + zZ), yZ - wX,
     xZ - wY, yZ + wX, 1 - (xX + yY)⟩

/-- `make_T`: identity 4x4 with the rotation block and translation column
assigned (`T[:3,:3] = quat2mat(q); T[:3,3] = t`). -/
def make_T (t : Vec3) (q : Quat) : Mat4 :=
  let R := quat2mat q
  ⟨R.r00, R.r01, R.r02, t.x,
   R.r10, R.r11, R.r12, t.y,
   R.r20, R.r21, R.r22, t.z,
   0, 0, 0, 1⟩

/-- `inv_T`: the rigid-body inverse, transpose of the rotation block and
negated rotated translation (`Ti[:3,:3] = R.T; Ti[:3,3] = -R.T @ t`). -/
def inv_T (T : Mat4) : Mat4 :=
  ⟨T.m00, T.m10, T.m20, -(T.m00 * T.m03 + T.m10 * T.m13 + T.m20 * T.m23),
   T.m01, T.m11, T.m21, -(T.m01 * T.m03 + T.m11 * T.m13 + T.m21 * T.m23),
   T.m02, T.m12, T.m22, -(T.m02 * T.m03 + T.m12 * T.m13 + T.m22 * T.m23),
   0, 0, 0, 1⟩

/-- Matrix product of two homogeneous transforms (`@` on 4x4 arrays). -/
def matMul4 (A B : Mat4) : Mat4 :=
  ⟨A.m00 * B.m00 + A.m01 * B.m10 + A.m02 * B.m20 + A.m03 * B.m30,
   A.m00 * B.m01 + A.m01 * B.m11 + A.m02 * B.m21 + A.m03 * B.m31,
   A.m00 * B.m02 + A.m01 * B.m12 + A.m02 * B.m22 + A.m03 * B.m32,
   A.m00 * B.m03 + A.m01 * B.m13 + A.m02 * B.m23 + A.m03 * B.m33,
   A.m10 * B.m00 + A.m11 * B.m10 + A.m12 * B.m20 + A.m13 * B.m30,
   A.m10 * B.m01 + A.m11 * B.m11 + A.m12 * B.m21 + A.m13 * B.m31,
   A.m10 * B.m02 + A.m11 * B.m12 + A.m12 * B.m22 + A.m13 * B.m32,
   A.m10 * B.m03 + A.m11 * B.m13 + A.m12 * B.m23 + A.m13 * B.m33,
   A.m20 * B.m00 + A.m21 * B.m10 + A.m22 * B.m20 + A.m23 * B.m30,
   A.m20 * B.m01 + A.m21 * B.m11 + A.m22 * B.m21 + A.m23 * B.m31,
   A.m20 * B.m02 + A.m21 * B.m12 + A.m22 * B.m22 + A.m23 * B.m32,
   A.m20 * B.m03 + A.m21 * B.m13 + A.m22 * B.m23 + A.m23 * B.m33,
   A.m30 * B.m00 + A.m31 * B.m10 + A.m32 * B.m20 + A.m33 * B.m30,
   A.m30 * B.m01 + A.m31 * B.m11 + A.m32 * B.m21 + A.m33 * B.m31,
   A.m30 * B.m02 + A.m31 * B.m12 + A.m32 * B.m22 + A.m33 * B.m32,
   A.m30 * B.m03 + A.m31 * B.m13 + A.m32 * B.m23 + A.m33 * B.m33⟩

/-- The 4x4 identity transform (`np.eye(4)`). -/
def eye4 : Mat4 := ⟨1, 0, 0, 0, 0, 1, 0, 0, 0, 0, 1, 0, 0, 0, 0, 1⟩

/-! ## Frame Replay/Verification Loop cursor (`tools/viz_nusc_like.py`) -/

/-- The bounds check at the top of `load_frame_data`: first clamp a negative
cursor to 0, then clamp a cursor at or past `count` to `count - 1`. -/
def clampIdx (count : ℕ) (idx : ℤ) : ℤ :=
  let i1 := if idx < 0 then 0 else idx
  if i1 ≥ (count : ℤ) then (count : ℤ) - 1 else i1

/-- `on_right` for a key-down event: `self.idx += 1` followed by the render,
whose `load_frame_data` clamps the stored cursor. -/
def navRight (count : ℕ) (idx : ℤ) : ℤ := clampIdx count (idx + 1)

/-- `on_left` for a key-down event: `self.idx -= 1` followed by the clamp. -/
def navLeft (count : ℕ) (idx : ℤ) : ℤ := clampIdx count (idx - 1)

/-! ## Statements of two spec claims that the code refutes -/

/-- The offset-consistency claim exactly as the spec states it: after any
non-dry-run record correction, every identified point file holds, at every
flat index, its old value plus `delta_z` exactly on third-column positions and
its old value elsewhere, and every well-formed annotation translation gains
`delta_z` on its vertical component. (No assumption that distinct sample-data
rows resolve to distinct files.) -/
def claimOffsetConsistent : Prop :=
  ∀ (args : Args) (root : String) (bins : Bins) (r : RecordState)
    (b' : Bins) (r' : RecordState) (c : RecCounts),
    args.dry_run = false →
    processRecord args root bins r = .ok (b', r', c) →
    c.skipped = false →
    (∀ sd ∈ lidarEntriesOf r, sd.filename ≠ "" →
      ∀ p, resolveBin bins root r.rdir (norm_rel_path sd.filename) = .ok p →
      ∀ arr, lookupBin bins p = some arr →
        ∀ k, (lookupBin b' p).bind (fun a => a[k]?) =
          (arr[k]?).map (fun v => if k % args.point_dim = 2 then v + args.delta_z else v)) ∧
    (∀ (i : ℕ) (x y z : ℚ), r.anns[i]? = some (Ann.mk (some [x, y, z])) →
      r'.anns[i]? = some (Ann.mk (some [x, y, z + args.delta_z])))

/-- The Path-Namespace Rewriter claim exactly as the spec states it: the
rewritten path is the namespace segment prefixed to the
separator-normalized, root-stripped local path. -/
def claimRewriterNormalizes : Prop :=
  ∀ recName p, rewrite_lidar_path recName p =
    "carla/nusc_like_multi/" ++ recName ++ "/" ++ norm_rel_path p

/-! ## Concrete data used by the witnesses -/

/-- `--delta_z 1 --point_dim 4`, no `--force`, no `--dry_run`. -/
def exArgs : Args := ⟨1, 4, false, false⟩

/-- Same invocation with `--dry_run`. -/
def exArgsDry : Args := ⟨1, 4, false, true⟩

/-- One well-formed 4-wide point file under the record. -/
def exBins : Bins := [("/r/record_0001/samples/lidar_top/f.bin", [5, 6, 7, 8])]

/-- The same path holding a buffer whose size is not divisible by 4. -/
def exBinsBad : Bins := [("/r/record_0001/samples/lidar_top/f.bin", [5, 6, 7])]

/-- A sample-data row the lidar heuristic matches. -/
def exRow : SampleDataRow := ⟨"samples/lidar_top/f.bin"⟩

/-- A complete uncorrected record with one lidar row and one annotation. -/
def exRecord : RecordState :=
  ⟨"/r/record_0001", [], true, true, true, [exRow], [⟨some [1, 2, 3]⟩]⟩

/-- `exRecord` after correction at offset `+1`. -/
def exRecordDone : RecordState :=
  ⟨"/r/record_0001", [".zshifted_+1.000"], true, true, true, [exRow], [⟨some [1, 2, 4]⟩]⟩

/-- `exBins` after correction at offset `+1`. -/
def exBinsDone : Bins := [("/r/record_0001/samples/lidar_top/f.bin", [5, 6, 8, 8])]

/-- A record with tables present but no row matching the lidar heuristic. -/
def exRecNoLidar : RecordState :=
  ⟨"/r/record_0002", [], true, true, true, [⟨"samples/CAM_FRONT/f.jpg"⟩], [⟨some [0, 0, 0]⟩]⟩

/-- A record whose correction moves no number at all: no lidar row, and its
only annotation has a malformed (1-element) translation. -/
def exRecNoShift : RecordState :=
  ⟨"/r/record_0003", [], true, true, true, [⟨"samples/CAM_FRONT/f.jpg"⟩], [⟨some [9]⟩]⟩

/-- `exRecNoShift` after a correction at offset `+1`: only the marker moved. -/
def exRecNoShiftDone : RecordState :=
  ⟨"/r/record_0003", [".zshifted_+1.000"], true, true, true,
    [⟨"samples/CAM_FRONT/f.jpg"⟩], [⟨some [9]⟩]⟩

/-! # Theorems -/

/-! ## Store lemmas -/

theorem lookupBin_isSome_iff (bins : Bins) (p : String) :
    (lookupBin bins p).isSome = true ↔ p ∈ binKeys bins := by
  induction bins with
  | nil => simp [lookupBin, binKeys]
  | cons hd tl ih =>
    obtain ⟨q, v⟩ := hd
    by_cases h : p = q <;> simp [lookupBin, binKeys, h] at ih ⊢
    exact ih

theorem binKeys_setBin (bins : Bins) (p : String) (v : List ℚ) :
    binKeys (setBin bins p v) = binKeys bins := by
  induction bins with
  | nil => rfl
  | cons hd tl ih =>
    obtain ⟨q, w⟩ := hd
    by_cases h : p = q <;> simp [setBin, binKeys, h] at ih ⊢
    exact ih

theorem lookupBin_setBin_self (bins : Bins) (p : String) (v w : List ℚ)
    (h : lookupBin bins p = some w) :
    lookupBin (setBin bins p v) p = some v := by
  induction bins with
  | nil => simp [lookupBin] at h
  | cons hd tl ih =>
    obtain ⟨q, u⟩ := hd
    by_cases hq : p = q
    · simp [setBin, lookupBin, hq]
    · simp [setBin, lookupBin, hq] at h ⊢
      exact ih h

theorem lookupBin_setBin_ne (bins : Bins) (p q : String) (v : List ℚ)
    (h : q ≠ p) :
    lookupBin (setBin bins p v) q = lookupBin bins q := by
  induction bins with
  | nil => rfl
  | cons hd tl ih =>
    obtain ⟨s, u⟩ := hd
    by_cases hs : p = s
    · subst hs
      simp [setBin, lookupBin, h]
    · by_cases hqs : q = s <;> simp [setBin, lookupBin, hs, hqs]
      exact ih

theorem isfile_congr (b₁ b₂ : Bins) (h : binKeys b₁ = binKeys b₂) (p : String) :
    isfile b₁ p = isfile b₂ p := by
  unfold isfile
  rcases h₁ : (lookupBin b₁ p).isSome <;> rcases h₂ : (lookupBin b₂ p).isSome
  · rfl
  · exact absurd (((lookupBin_isSome_iff b₁ p).mpr (h ▸ (lookupBin_isSome_iff b₂ p).mp h₂))) (by simp [h₁])
  · exact absurd (((lookupBin_isSome_iff b₂ p).mpr (h ▸ (lookupBin_isSome_iff b₁ p).mp h₁))) (by simp [h₂])
  · rfl

theorem basenameHits_congr (b₁ b₂ : Bins) (h : binKeys b₁ = binKeys b₂) (rdir fn : String) :
    basenameHits b₁ rdir fn = basenameHits b₂ rdir fn := by
  unfold basenameHits
  rw [h]

theorem resolveBin_congr (b₁ b₂ : Bins) (root rdir fn : String)
    (h : binKeys b₁ = binKeys b₂) :
    resolveBin b₁ root rdir fn = resolveBin b₂ root rdir fn := by
  simp only [resolveBin, isfile_congr b₁ b₂ h, basenameHits_congr b₁ b₂ h]

theorem pathsOf_congr (b₁ b₂ : Bins) (root rdir : String) (es : List SampleDataRow)
    (h : binKeys b₁ = binKeys b₂) :
    pathsOf root rdir b₁ es = pathsOf root rdir b₂ es := by
  unfold pathsOf
  apply List.filterMap_congr
  intro sd _
  rw [resolveBin_congr b₁ b₂ _ _ _ h]

theorem shift_bin_inplace_keys (bins b' : Bins) (p : String) (dim : ℕ) (dz : ℚ) (n : ℕ)
    (h : shift_bin_inplace bins p dim dz = .ok (b', n)) :
    binKeys b' = binKeys bins := by
  unfold shift_bin_inplace at h
  rcases hl : lookupBin bins p with _ | arr <;> rw [hl] at h
  · exact absurd h (by simp)
  · by_cases hm : arr.length % dim ≠ 0
    · simp [hm] at h
    · simp [hm] at h
      rw [← h.1, binKeys_setBin]

theorem processEntry_keys (args : Args) (root rdir : String) (bins b' : Bins)
    (sd : SampleDataRow) (db dp : ℕ)
    (h : processEntry args root rdir bins sd = .ok (b', db, dp)) :
    binKeys b' = binKeys bins := by
  unfold processEntry at h
  by_cases hf : sd.filename = ""
  · simp [hf] at h
    rw [h.1]
  · simp only [hf, if_false] at h
    rcases hres : resolveBin bins root rdir (norm_rel_path sd.filename) with e | p <;>
      rw [hres] at h
    · exact absurd h (by simp)
    · by_cases hd : args.dry_run
      · simp [hd] at h
        rw [h.1]
      · simp only [hd, if_false] at h
        rcases hs : shift_bin_inplace bins p args.point_dim args.delta_z with e | ⟨b₂, n⟩ <;>
          rw [hs] at h
        · exact absurd h (by simp)
        · simp at h
          rw [← h.1]
          exact shift_bin_inplace_keys bins b₂ p args.point_dim args.delta_z n hs

theorem shiftLoop_cons_inv (args : Args) (root rdir : String) (bins : Bins)
    (sd : SampleDataRow) (rest : List SampleDataRow) (nb np : ℕ) (out : Bins × ℕ × ℕ)
    (h : shiftLoop args root rdir bins (sd :: rest) (nb, np) = .ok out) :
    ∃ b₁ db dp, processEntry args root rdir bins sd = .ok (b₁, db, dp) ∧
      shiftLoop args root rdir b₁ rest (nb + db, np + dp) = .ok out := by
  unfold shiftLoop at h
  rcases hp : processEntry args root rdir bins sd with e | ⟨b₁, db, dp⟩ <;> rw [hp] at h
  · exact absurd h (by simp)
  · exact ⟨b₁, db, dp, rfl, h⟩

theorem shiftLoop_keys (args : Args) (root rdir : String) :
    ∀ (es : List SampleDataRow) (bins b' : Bins) (nb np nb' np' : ℕ),
    shiftLoop args root rdir bins es (nb, np) = .ok (b', nb', np') →
    binKeys b' = binKeys bins := by
  intro es
  induction es with
  | nil =>
    intro bins b' nb np nb' np' h
    unfold shiftLoop at h
    simp at h
    rw [h.1]
  | cons sd rest ih =>
    intro bins b' nb np nb' np' h
    obtain ⟨b₁, db, dp, hp, hrest⟩ := shiftLoop_cons_inv args root rdir bins sd rest nb np _ h
    rw [ih b₁ b' _ _ _ _ hrest, processEntry_keys args root rdir bins b₁ sd db dp hp]

theorem shiftLoop_frame (args : Args) (root rdir : String) :
    ∀ (es : List SampleDataRow) (bins b' : Bins) (nb np nb' np' : ℕ),
    shiftLoop args root rdir bins es (nb, np) = .ok (b', nb', np') →
    ∀ q, q ∉ pathsOf root rdir bins es → lookupBin b' q = lookupBin bins q := by
  intro es
  induction es with
  | nil =>
    intro bins b' nb np nb' np' h q _
    unfold shiftLoop at h
    simp at h
    rw [h.1]
  | cons sd rest ih =>
    intro bins b' nb np nb' np' h q hq
    obtain ⟨b₁, db, dp, hp, hrest⟩ := shiftLoop_cons_inv args root rdir bins sd rest nb np _ h
    have hkeys : binKeys b₁ = binKeys bins :=
      processEntry_keys args root rdir bins b₁ sd db dp hp
    have hq' : q ∉ pathsOf root rdir b₁ rest := by
      rw [pathsOf_congr b₁ bins root rdir rest hkeys]
      intro hmem
      exact hq (by
        unfold pathsOf at hmem ⊢
        simp only [List.filterMap_cons]
        rcases hsp : (if sd.filename = "" then none
            else (resolveBin bins root rdir (norm_rel_path sd.filename)).toOption) with _ | v
        · exact hmem
        · exact List.mem_cons_of_mem v hmem)
    rw [ih b₁ b' _ _ _ _ hrest q hq']
    -- it remains to show the head step did not touch `q`
    unfold processEntry at hp
    by_cases hf : sd.filename = ""
    · simp [hf] at hp
      rw [hp.1]
    · simp only [hf, if_false] at hp
      rcases hres : resolveBin bins root rdir (norm_rel_path sd.filename) with e | p <;>
        rw [hres] at hp
      · exact absurd hp (by simp)
      · have hqp : q ≠ p := by
          intro hqp
          apply hq
          unfold pathsOf
          simp only [List.filterMap_cons, hf, if_false, hres, Except.toOption]
          exact hqp ▸ List.mem_cons_self p _
        by_cases hd : args.dry_run
        · simp [hd] at hp
          rw [hp.1]
        · simp only [hd, if_false] at hp
          rcases hs : shift_bin_inplace bins p args.point_dim args.delta_z with e | ⟨b₂, n⟩ <;>
            rw [hs] at hp
          · exact absurd hp (by simp)
          · simp at hp
            rw [← hp.1]
            unfold shift_bin_inplace at hs
            rcases hl : lookupBin bins p with _ | arr <;> rw [hl] at hs
            · exact absurd hs (by simp)
            · by_cases hm : arr.length % args.point_dim ≠ 0
              · simp [hm] at hs
              · simp [hm] at hs
                rw [← hs.1]
                exact lookupBin_setBin_ne bins p q _ hqp

theorem shiftedContent_getElem (dim : ℕ) (dz : ℚ) :
    ∀ (arr : List ℚ) (j k : ℕ),
    (shiftedContent dim dz j arr)[k]? =
      (arr[k]?).map (fun v => if (j + k) % dim = 2 then v + dz else v) := by
  intro arr
  induction arr with
  | nil => intro j k; simp [shiftedContent]
  | cons v rest ih =>
    intro j k
    cases k with
    | zero => simp [shiftedContent]
    | succ k =>
      simp only [shiftedContent, List.getElem?_cons_succ, ih (j + 1) k,
        show j + 1 + k = j + (k + 1) from by omega]

theorem processEntry_shift_inv (args : Args) (root rdir : String) (bins b' : Bins)
    (sd : SampleDataRow) (db dp : ℕ)
    (hdry : args.dry_run = false) (hf : sd.filename ≠ "")
    (h : processEntry args root rdir bins sd = .ok (b', db, dp)) :
    ∃ p arr, resolveBin bins root rdir (norm_rel_path sd.filename) = .ok p ∧
      lookupBin bins p = some arr ∧ arr.length % args.point_dim = 0 ∧
      b' = setBin bins p (shiftedContent args.point_dim args.delta_z 0 arr) ∧
      db = 1 ∧ dp = arr.length / args.point_dim := by
  unfold processEntry at h
  simp only [hf, if_false, hdry] at h
  rcases hres : resolveBin bins root rdir (norm_rel_path sd.filename) with e | p <;>
    rw [hres] at h
  · exact absurd h (by simp)
  · simp only [Bool.false_eq_true, if_false] at h
    rcases hs : shift_bin_inplace bins p args.point_dim args.delta_z with e | ⟨b₂, n⟩ <;>
      rw [hs] at h
    · exact absurd h (by simp)
    · unfold shift_bin_inplace at hs
      rcases hl : lookupBin bins p with _ | arr <;> rw [hl] at hs
      · exact absurd hs (by simp)
      · by_cases hm : arr.length % args.point_dim ≠ 0
        · simp [hm] at hs
        · simp only [hm, if_false] at hs
          simp only [Except.ok.injEq, Prod.mk.injEq] at hs h
          push_neg at hm
          exact ⟨p, arr, rfl, hl, hm, by rw [← h.1, ← hs.1], h.2.1.symm,
            by rw [← h.2.2, ← hs.2]⟩

/-- The heart of the offset-consistency proof: when the resolved paths of the
identified entries are pairwise distinct, the loop rewrites each such file to
exactly the shifted image of its pre-loop contents. -/
theorem shiftLoop_shifts (args : Args) (root rdir : String)
    (hdry : args.dry_run = false) :
    ∀ (es : List SampleDataRow) (bins b' : Bins) (nb np nb' np' : ℕ),
    shiftLoop args root rdir bins es (nb, np) = .ok (b', nb', np') →
    (pathsOf root rdir bins es).Nodup →
    ∀ sd ∈ es, sd.filename ≠ "" →
    ∀ p, resolveBin bins root rdir (norm_rel_path sd.filename) = .ok p →
    ∀ arr, lookupBin bins p = some arr →
    lookupBin b' p = some (shiftedContent args.point_dim args.delta_z 0 arr) ∧
    arr.length % args.point_dim = 0 := by
  intro es
  induction es with
  | nil => intro bins b' nb np nb' np' h hnd sd hsd; exact absurd hsd (by simp)
  | cons sd₀ rest ih =>
    intro bins b' nb np nb' np' h hnd sd hsd hf p hres arr harr
    obtain ⟨b₁, db, dp, hp, hrest⟩ := shiftLoop_cons_inv args root rdir bins sd₀ rest nb np _ h
    have hkeys : binKeys b₁ = binKeys bins :=
      processEntry_keys args root rdir bins b₁ sd₀ db dp hp
    rcases List.mem_cons.mp hsd with hhead | htail
    · -- the target entry is the head: its file is shifted now and never touched again
      subst hhead
      obtain ⟨p₀, arr₀, hres₀, harr₀, hdvd₀, hb₁, _, _⟩ :=
        processEntry_shift_inv args root rdir bins b₁ sd db dp hdry hf hp
      have hpp : p = p₀ := by rw [hres] at hres₀; exact Except.ok.inj hres₀
      subst hpp
      have harr' : arr = arr₀ := by rw [harr] at harr₀; exact Option.some.inj harr₀
      subst harr'
      have hhd : pathsOf root rdir bins (sd :: rest) = p :: pathsOf root rdir bins rest := by
        unfold pathsOf
        simp [List.filterMap_cons, hf, hres, Except.toOption]
      have hnotin : p ∉ pathsOf root rdir b₁ rest := by
        rw [pathsOf_congr b₁ bins root rdir rest hkeys]
        rw [hhd] at hnd
        exact (List.nodup_cons.mp hnd).1
      have := shiftLoop_frame args root rdir rest b₁ b' _ _ _ _ hrest p hnotin
      rw [this, hb₁]
      exact ⟨lookupBin_setBin_self bins p _ arr harr, hdvd₀⟩
    · -- the target entry is in the tail: apply the induction hypothesis over `b₁`
      have hres₁ : resolveBin b₁ root rdir (norm_rel_path sd.filename) = .ok p := by
        rw [resolveBin_congr b₁ bins root rdir _ hkeys]; exact hres
      have hpaths₁ : pathsOf root rdir b₁ rest = pathsOf root rdir bins rest :=
        pathsOf_congr b₁ bins root rdir rest hkeys
      have hmemp : p ∈ pathsOf root rdir bins rest := by
        unfold pathsOf
        refine List.mem_filterMap.mpr ⟨sd, htail, ?_⟩
        simp [hf, hres, Except.toOption]
      have harr₁ : lookupBin b₁ p = some arr := by
        unfold processEntry at hp
        by_cases hf₀ : sd₀.filename = ""
        · simp [hf₀] at hp
          rw [← hp.1]; exact harr
        · simp only [hf₀, if_false, hdry, Bool.false_eq_true] at hp
          rcases hres₀ : resolveBin bins root rdir (norm_rel_path sd₀.filename) with e | p₀ <;>
            rw [hres₀] at hp
          · exact absurd hp (by simp)
          · simp only [if_false] at hp
            rcases hs : shift_bin_inplace bins p₀ args.point_dim args.delta_z with e | ⟨b₂, n⟩ <;>
              rw [hs] at hp
            · exact absurd hp (by simp)
            · have hppne : p ≠ p₀ := by
                intro hpp
                subst hpp
                have hhd : pathsOf root rdir bins (sd₀ :: rest) =
                    p :: pathsOf root rdir bins rest := by
                  unfold pathsOf
                  simp [List.filterMap_cons, hf₀, hres₀, Except.toOption]
                rw [hhd] at hnd
                exact (List.nodup_cons.mp hnd).1 hmemp
              simp only [Except.ok.injEq, Prod.mk.injEq] at hp
              rw [← hp.1]
              unfold shift_bin_inplace at hs
              rcases hl : lookupBin bins p₀ with _ | arr₀ <;> rw [hl] at hs
              · exact absurd hs (by simp)
              · by_cases hm : arr₀.length % args.point_dim ≠ 0
                · simp [hm] at hs
                · simp only [hm, if_false, Except.ok.injEq, Prod.mk.injEq] at hs
                  rw [← hs.1, lookupBin_setBin_ne bins p₀ p _ hppne]
                  exact harr
      have hnd₁ : (pathsOf root rdir b₁ rest).Nodup := by
        rw [hpaths₁]
        rcases hsp : (if sd₀.filename = "" then none
            else (resolveBin bins root rdir (norm_rel_path sd₀.filename)).toOption) with _ | v
        · have : pathsOf root rdir bins (sd₀ :: rest) = pathsOf root rdir bins rest := by
            unfold pathsOf
            simp only [List.filterMap_cons, hsp]
          rw [this] at hnd
          exact hnd
        · have : pathsOf root rdir bins (sd₀ :: rest) = v :: pathsOf root rdir bins rest := by
            unfold pathsOf
            simp only [List.filterMap_cons, hsp]
          rw [this] at hnd
          exact (List.nodup_cons.mp hnd).2
      exact ih b₁ b' _ _ _ _ hrest hnd₁ sd htail hf p hres₁ arr harr₁

/-! ## Dry-run lemmas -/

theorem processEntry_dry (args : Args) (root rdir : String) (bins : Bins)
    (sd : SampleDataRow) (hdry : args.dry_run = true) :
    processEntry args root rdir bins sd =
        .ok (bins, (if sd.filename = "" then 0 else 1), 0) ∨
    ∃ e, processEntry args root rdir bins sd = .error e := by
  unfold processEntry
  by_cases hf : sd.filename = ""
  · left; simp [hf]
  · rcases hres : resolveBin bins root rdir (norm_rel_path sd.filename) with e | p
    · right; exact ⟨e, by simp [hf]⟩
    · left; simp [hf, hdry]

theorem shiftLoop_dry (args : Args) (root rdir : String) (hdry : args.dry_run = true) :
    ∀ (es : List SampleDataRow) (bins : Bins) (nb np : ℕ),
    shiftLoop args root rdir bins es (nb, np) = .ok (bins, nb + countNonEmptyRows es, np) ∨
    ∃ e, shiftLoop args root rdir bins es (nb, np) = .error (e, bins) := by
  intro es
  induction es with
  | nil => intro bins nb np; left; simp [shiftLoop, countNonEmptyRows]
  | cons sd rest ih =>
    intro bins nb np
    rcases processEntry_dry args root rdir bins sd hdry with hok | ⟨e, herr⟩
    · have hcount : countNonEmptyRows (sd :: rest) =
          (if sd.filename = "" then 0 else 1) + countNonEmptyRows rest := by
        unfold countNonEmptyRows
        by_cases hf : sd.filename = "" <;> simp [hf]
        omega
      rcases ih bins (nb + (if sd.filename = "" then 0 else 1)) np with hok' | ⟨e, herr'⟩
      · left
        unfold shiftLoop
        rw [hok]
        rw [hcount, ← Nat.add_assoc]
        exact hok'
      · right
        refine ⟨e, ?_⟩
        unfold shiftLoop
        rw [hok]
        exact herr'
    · right
      refine ⟨e, ?_⟩
      unfold shiftLoop
      rw [herr]

theorem processRecord_dry (args : Args) (root : String) (bins : Bins) (r : RecordState)
    (hdry : args.dry_run = true) :
    processRecord args root bins r = .ok (bins, r, skipCounts) ∨
    processRecord args root bins r =
      .ok (bins, r,
        ⟨countNonEmptyRows (lidarEntriesOf r), 0, (r.anns.filter wfTrans).length,
         false, (lidarEntriesOf r).isEmpty⟩) ∨
    ∃ e, processRecord args root bins r = .error (e, bins) := by
  unfold processRecord
  by_cases h1 : markerName args.delta_z ∈ r.markers ∧ args.force = false
  · left; simp [h1]
  · by_cases h2 : r.hasVersionDir = false
    · left; simp [h1, h2]
    · by_cases h3 : r.hasSampleData = false
      · left; simp [h1, h2, h3]
      · by_cases h4 : r.hasSampleAnn = false
        · left; simp [h1, h2, h3, h4]
        · rcases shiftLoop_dry args root r.rdir hdry (lidarEntriesOf r) bins 0 0 with hok | ⟨e, herr⟩
          · right; left
            simp only [h1, h2, h3, h4, if_false]
            rw [hok]
            simp [hdry]
          · right; right
            refine ⟨e, ?_⟩
            simp only [h1, h2, h3, h4, if_false]
            rw [herr]
            simp

theorem runAll_dry (args : Args) (root : String) (hdry : args.dry_run = true) :
    ∀ (recs : List RecordState) (bins : Bins),
    stateOfRun (runAll args root bins recs) = (bins, recs) := by
  intro recs
  induction recs with
  | nil => intro bins; rfl
  | cons r rest ih =>
    intro bins
    have hnext := ih bins
    rcases processRecord_dry args root bins r hdry with hok | hok | ⟨e, herr⟩
    · rcases hrest : runAll args root bins rest with ⟨e2, b2, rest2⟩ | ⟨b2, rest2, t2⟩ <;>
        rw [hrest] at hnext <;>
        simp only [stateOfRun] at hnext <;>
        obtain ⟨hb, hr⟩ := Prod.mk.inj hnext <;>
        unfold runAll <;> rw [hok] <;> simp [stateOfRun, hrest, hb, hr]
    · rcases hrest : runAll args root bins rest with ⟨e2, b2, rest2⟩ | ⟨b2, rest2, t2⟩ <;>
        rw [hrest] at hnext <;>
        simp only [stateOfRun] at hnext <;>
        obtain ⟨hb, hr⟩ := Prod.mk.inj hnext <;>
        unfold runAll <;> rw [hok] <;> simp [stateOfRun, hrest, hb, hr]
    · unfold runAll
      rw [herr]
      simp [stateOfRun]

/-! ## Second-run lemmas -/

theorem processRecord_again (args : Args) (root : String) (bins : Bins) (r : RecordState)
    (b₂ : Bins) (r₂ : RecordState) (c : RecCounts)
    (hdry : args.dry_run = false) (hforce : args.force = false)
    (h : processRecord args root bins r = .ok (b₂, r₂, c)) :
    ∀ B : Bins, processRecord args root B r₂ = .ok (B, r₂, skipCounts) := by
  intro B
  simp only [processRecord] at h
  by_cases h1 : markerName args.delta_z ∈ r.markers ∧ args.force = false
  · rw [if_pos h1] at h
    obtain ⟨hb, hr, hc⟩ := by simpa only [Except.ok.injEq, Prod.mk.injEq] using h
    subst hr
    simp only [processRecord]
    rw [if_pos h1]
  · rw [if_neg h1] at h
    by_cases h2 : r.hasVersionDir = false
    · rw [if_pos h2] at h
      obtain ⟨hb, hr, hc⟩ := by simpa only [Except.ok.injEq, Prod.mk.injEq] using h
      subst hr
      simp only [processRecord]
      rw [if_neg h1, if_pos h2]
    · rw [if_neg h2] at h
      by_cases h3 : r.hasSampleData = false
      · rw [if_pos h3] at h
        obtain ⟨hb, hr, hc⟩ := by simpa only [Except.ok.injEq, Prod.mk.injEq] using h
        subst hr
        simp only [processRecord]
        rw [if_neg h1, if_neg h2, if_pos h3]
      · rw [if_neg h3] at h
        by_cases h4 : r.hasSampleAnn = false
        · rw [if_pos h4] at h
          obtain ⟨hb, hr, hc⟩ := by simpa only [Except.ok.injEq, Prod.mk.injEq] using h
          subst hr
          simp only [processRecord]
          rw [if_neg h1, if_neg h2, if_neg h3, if_pos h4]
        · rw [if_neg h4] at h
          rcases hsl : shiftLoop args root r.rdir bins (lidarEntriesOf r) (0, 0) with
            ⟨e, b'⟩ | ⟨b', nb, np⟩ <;> rw [hsl] at h
          · exact absurd h (by simp)
          · simp only [hdry, Bool.false_eq_true, if_false] at h
            obtain ⟨hb, hr, hc⟩ := by simpa only [Except.ok.injEq, Prod.mk.injEq] using h
            subst hr
            simp only [processRecord]
            rw [if_pos ⟨List.mem_cons_self _ _, hforce⟩]

theorem runAll_again (args : Args) (root : String)
    (hdry : args.dry_run = false) (hforce : args.force = false) :
    ∀ (recs : List RecordState) (bins b' : Bins) (recs' : List RecordState) (t : Totals),
    runAll args root bins recs = .ok (b', recs', t) →
    ∃ t₂, runAll args root b' recs' = .ok (b', recs', t₂) := by
  intro recs
  induction recs with
  | nil =>
    intro bins b' recs' t h
    unfold runAll at h
    simp only [Except.ok.injEq, Prod.mk.injEq] at h
    rw [← h.1, ← h.2.1]
    exact ⟨⟨0, 0, 0⟩, rfl⟩
  | cons r rest ih =>
    intro bins b' recs' t h
    unfold runAll at h
    rcases hp : processRecord args root bins r with ⟨e, bE⟩ | ⟨b₁, r₁, c⟩
    · rw [hp] at h
      exact absurd h (by simp)
    · simp only [hp] at h
      rcases hrest : runAll args root b₁ rest with ⟨e2, bE, restE⟩ | ⟨b₂, rest₂, t'⟩
      · rw [hrest] at h
        exact absurd h (by simp)
      · rw [hrest] at h
        simp only [Except.ok.injEq, Prod.mk.injEq] at h
        obtain ⟨hb, hrecs, ht⟩ := h
        obtain ⟨t₂, hrun₂⟩ := ih b₁ b₂ rest₂ t' hrest
        refine ⟨addTotals skipCounts t₂, ?_⟩
        subst hb hrecs
        unfold runAll
        simp [processRecord_again args root bins r b₁ r₁ c hdry hforce hp, hrun₂]

/-! ## Claim theorems -/

/-- C3: a point file whose element count is not divisible by the configured
point width raises the fatal malformed-point-file error from
`shift_bin_inplace` before anything is written: the failing operation returns
the store unchanged, and the error propagates uncaught through the per-record
loop and the whole run. -/
theorem malformed_bin_fatal :
    (∀ (bins : Bins) (p : String) (arr : List ℚ) (dim : ℕ) (dz : ℚ),
      lookupBin bins p = some arr → arr.length % dim ≠ 0 →
      shift_bin_inplace bins p dim dz = .error (.malformedPointFile p)) ∧
    (∀ (args : Args) (root rdir : String) (bins : Bins) (sd : SampleDataRow) (p : String)
      (arr : List ℚ),
      args.dry_run = false → sd.filename ≠ "" →
      resolveBin bins root rdir (norm_rel_path sd.filename) = .ok p →
      lookupBin bins p = some arr → arr.length % args.point_dim ≠ 0 →
      processEntry args root rdir bins sd = .error (.malformedPointFile p)) ∧
    (∀ (args : Args) (root rdir : String) (bins : Bins) (sd : SampleDataRow)
      (rest : List SampleDataRow) (nb np : ℕ) (e : Err),
      processEntry args root rdir bins sd = .error e →
      shiftLoop args root rdir bins (sd :: rest) (nb, np) = .error (e, bins)) ∧
    (∀ (args : Args) (root : String) (bins b' : Bins) (r : RecordState)
      (rest : List RecordState) (e : Err),
      processRecord args root bins r = .error (e, b') →
      runAll args root bins (r :: rest) = .error (e, b', r :: rest)) := by
  refine ⟨?_, ?_, ?_, ?_⟩
  · intro bins p arr dim dz hlk hlen
    unfold shift_bin_inplace
    rw [hlk]
    simp [hlen]
  · intro args root rdir bins sd p arr hdry hf hres hlk hlen
    simp [processEntry, hf, hres, hdry, shift_bin_inplace, hlk, hlen]
  · intro args root rdir bins sd rest nb np e hpe
    unfold shiftLoop
    rw [hpe]
  · intro args root bins b' r rest e hpr
    unfold runAll
    rw [hpr]

/-- Witness for C3 on a 3-element buffer with width 4. -/
theorem malformed_bin_fatal_witness :
    lookupBin exBinsBad "/r/record_0001/samples/lidar_top/f.bin" = some [5, 6, 7] ∧
    ([(5 : ℚ), 6, 7].length % 4 ≠ 0) ∧
    shift_bin_inplace exBinsBad "/r/record_0001/samples/lidar_top/f.bin" 4 1 =
      .error (.malformedPointFile "/r/record_0001/samples/lidar_top/f.bin") :=
  ⟨by decide, by decide,
    malformed_bin_fatal.1 exBinsBad "/r/record_0001/samples/lidar_top/f.bin" [5, 6, 7] 4 1
      (by decide) (by decide)⟩

/-- C4: resolution tries the record-root-relative path, then the
corpus-root-relative path, then the record-scoped basename search, and fails
with the path-resolution error exactly when the first two candidates do not
exist and the basename search has zero or several hits. -/
theorem resolve_order_and_failure (bins : Bins) (root rdir fn : String) :
    (isfile bins (rdir ++ "/" ++ fn) = true →
      resolveBin bins root rdir fn = .ok (rdir ++ "/" ++ fn)) ∧
    (isfile bins (rdir ++ "/" ++ fn) = false → isfile bins (root ++ "/" ++ fn) = true →
      resolveBin bins root rdir fn = .ok (root ++ "/" ++ fn)) ∧
    (∀ p, isfile bins (rdir ++ "/" ++ fn) = false → isfile bins (root ++ "/" ++ fn) = false →
      basenameHits bins rdir fn = [p] → resolveBin bins root rdir fn = .ok p) ∧
    (resolveBin bins root rdir fn = .error (.pathResolution fn) ↔
      (isfile bins (rdir ++ "/" ++ fn) = false ∧ isfile bins (root ++ "/" ++ fn) = false ∧
        (basenameHits bins rdir fn).length ≠ 1)) := by
  refine ⟨?_, ?_, ?_, ?_, ?_⟩
  · intro h1
    simp [resolveBin, h1]
  · intro h1 h2
    simp [resolveBin, h1, h2]
  · intro p h1 h2 hh
    simp [resolveBin, h1, h2, hh]
  · intro herr
    by_cases h1 : isfile bins (rdir ++ "/" ++ fn) = true
    · simp [resolveBin, h1] at herr
    · by_cases h2 : isfile bins (root ++ "/" ++ fn) = true
      · simp [resolveBin, h1, h2] at herr
      · refine ⟨by simpa using h1, by simpa using h2, ?_⟩
        rcases hh : basenameHits bins rdir fn with _ | ⟨p, _ | ⟨q, t⟩⟩
        · simp [hh]
        · simp [resolveBin, h1, h2, hh] at herr
        · simp [hh]
  · rintro ⟨h1, h2, hlen⟩
    rcases hh : basenameHits bins rdir fn with _ | ⟨p, _ | ⟨q, t⟩⟩
    · simp [resolveBin, h1, h2, hh]
    · rw [hh] at hlen
      simp at hlen
    · simp [resolveBin, h1, h2, hh]

/-- Witness for C4: the record-root-relative candidate exists and wins. -/
theorem resolve_order_witness :
    isfile exBins ("/r/record_0001" ++ "/" ++ "samples/lidar_top/f.bin") = true ∧
    resolveBin exBins "/r" "/r/record_0001" "samples/lidar_top/f.bin" =
      .ok ("/r/record_0001" ++ "/" ++ "samples/lidar_top/f.bin") :=
  ⟨by decide,
    (resolve_order_and_failure exBins "/r" "/r/record_0001" "samples/lidar_top/f.bin").1
      (by decide)⟩

/-- C5 counterexample: the rewriter does not normalize separators or strip a
root marker before prefixing — a backslash-separated local path is prefixed
verbatim, unlike the normalize-then-prefix contract the spec states. -/
theorem rewriter_not_normalizing : ¬ claimRewriterNormalizes := by
  intro h
  exact absurd (h "record_0001" "a\\b.bin") (by decide)

/-- C5 amended: the rewriter prefixes the record's namespace segment to the
local path unchanged, and for record-local relative paths (no leading root
marker) the rewritten paths of two distinct records always differ. -/
theorem rewriter_prefix_injective (r1 r2 p : String) (hp : strStartsWith p "/" = false) :
    rewrite_lidar_path r1 p = "carla/nusc_like_multi/" ++ r1 ++ "/" ++ p ∧
    (r1 ≠ r2 → rewrite_lidar_path r1 p ≠ rewrite_lidar_path r2 p) := by
  constructor
  · simp [rewrite_lidar_path, hp]
  · intro hne heq
    simp only [rewrite_lidar_path, hp, Bool.false_eq_true, if_false] at heq
    apply hne
    have hdata : ("carla/nusc_like_multi/" ++ r1 ++ "/" ++ p).data =
        ("carla/nusc_like_multi/" ++ r2 ++ "/" ++ p).data := by rw [heq]
    simp only [String.data_append] at hdata
    exact String.ext (List.append_cancel_left (List.append_cancel_right
      (List.append_cancel_right hdata)))

/-- Witness for the amended C5 on two concrete records sharing a path. -/
theorem rewriter_prefix_injective_witness :
    strStartsWith "samples/LIDAR_TOP/x.bin" "/" = false ∧
    ("record_0001" : String) ≠ "record_0002" ∧
    rewrite_lidar_path "record_0001" "samples/LIDAR_TOP/x.bin" ≠
      rewrite_lidar_path "record_0002" "samples/LIDAR_TOP/x.bin" :=
  ⟨by decide, by decide,
    (rewriter_prefix_injective "record_0001" "record_0002" "samples/LIDAR_TOP/x.bin"
      (by decide)).2 (by decide)⟩

/-- C9: each navigation step stores a cursor clamped to `[0, count-1]`;
stepping right at the last sample and left at the first saturate. -/
theorem cursor_clamped (count : ℕ) (h : 1 ≤ count) :
    (∀ idx : ℤ, 0 ≤ navRight count idx ∧ navRight count idx < count ∧
      0 ≤ navLeft count idx ∧ navLeft count idx < count) ∧
    navRight count ((count : ℤ) - 1) = (count : ℤ) - 1 ∧
    navLeft count 0 = 0 := by
  have hcl : ∀ j : ℤ, 0 ≤ clampIdx count j ∧ clampIdx count j < count := by
    intro j
    simp only [clampIdx]
    split_ifs <;> constructor <;> omega
  refine ⟨fun idx => ⟨(hcl _).1, (hcl _).2, (hcl _).1, (hcl _).2⟩, ?_, ?_⟩ <;>
    simp only [navRight, navLeft, clampIdx] <;> split_ifs <;> omega

/-- Witness for C9 with three samples. -/
theorem cursor_clamped_witness :
    1 ≤ 3 ∧ navRight 3 ((3 : ℤ) - 1) = (3 : ℤ) - 1 ∧ navLeft 3 0 = 0 :=
  ⟨by decide, (cursor_clamped 3 (by decide)).2.1, (cursor_clamped 3 (by decide)).2.2⟩

/-- C10: when the lidar heuristic matches no sensor-data row, a non-dry-run
correction warns (`warnedNoLidar`) but still shifts every well-formed
annotation translation, saves the table, and records the marker, touching no
point file. -/
theorem no_lidar_rows_still_corrects (args : Args) (root : String) (bins : Bins)
    (r : RecordState)
    (hdry : args.dry_run = false)
    (hmk : ¬(markerName args.delta_z ∈ r.markers ∧ args.force = false))
    (hv : r.hasVersionDir = true) (hd : r.hasSampleData = true) (ha : r.hasSampleAnn = true)
    (hnl : lidarEntriesOf r = []) :
    processRecord args root bins r =
      .ok (bins,
        ⟨r.rdir, markerName args.delta_z :: r.markers, r.hasVersionDir, r.hasSampleData,
          r.hasSampleAnn, r.sampleData, r.anns.map (shiftAnn args.delta_z)⟩,
        ⟨0, 0, (r.anns.filter wfTrans).length, false, true⟩) := by
  simp only [processRecord, if_neg hmk, hv, hd, ha, hnl]
  simp [shiftLoop, hdry, hv, hd, ha]

/-- Witness for C10: a record with one camera row and one annotation
(`0 + 1` is left unevaluated because `Rat.add` is irreducible by design). -/
theorem no_lidar_rows_witness :
    exArgs.dry_run = false ∧ lidarEntriesOf exRecNoLidar = [] ∧
    processRecord exArgs "/r" [] exRecNoLidar =
      .ok ([],
        ⟨"/r/record_0002", [".zshifted_+1.000"], true, true, true,
          [⟨"samples/CAM_FRONT/f.jpg"⟩], [⟨some [0, 0, 0 + 1]⟩]⟩,
        ⟨0, 0, 1, false, true⟩) :=
  ⟨rfl, by decide,
    no_lidar_rows_still_corrects exArgs "/r" [] exRecNoLidar rfl (by decide) rfl rfl rfl
      (by decide)⟩

/-- C6: the Info Aggregator's output depends only on the set of discovered
directories, not on the OS iteration order (it filters `record_*` names and
sorts them), and the records are processed in lexicographic order. -/
theorem aggregate_deterministic (env : String → List Info) (d₁ d₂ : List String) :
    (List.Perm d₁ d₂ → aggregate env d₁ = aggregate env d₂) ∧
    List.Sorted (· ≤ ·) (discoverRecords d₁) := by
  constructor
  · intro hperm
    have hrec : discoverRecords d₁ = discoverRecords d₂ :=
      List.eq_of_perm_of_sorted
        (((List.perm_insertionSort _ _).trans (hperm.filter _)).trans
          (List.perm_insertionSort _ _).symm)
        (List.sorted_insertionSort _ _) (List.sorted_insertionSort _ _)
    unfold aggregate
    rw [hrec]
  · exact List.sorted_insertionSort _ _

/-- Witness for C6: two discovery orders of the same directories. -/
theorem aggregate_deterministic_witness :
    List.Perm ["record_b", "other", "record_a"] ["record_a", "record_b", "other"] ∧
    aggregate (fun _ => [⟨"samples/x.bin", 0⟩]) ["record_b", "other", "record_a"] =
      aggregate (fun _ => [⟨"samples/x.bin", 0⟩]) ["record_a", "record_b", "other"] :=
  ⟨by decide,
    (aggregate_deterministic (fun _ => [⟨"samples/x.bin", 0⟩])
      ["record_b", "other", "record_a"] ["record_a", "record_b", "other"]).1 (by decide)⟩

/-- For a unit quaternion the `transforms3d` formula reduces to the standard
rotation matrix (the near-zero-norm branch is not taken and `s = 2`). -/
theorem quat2mat_unit (q : Quat) (h : q.w * q.w + q.x * q.x + q.y * q.y + q.z * q.z = 1) :
    quat2mat q =
      ⟨1 - 2 * q.y ^ 2 - 2 * q.z ^ 2, 2 * q.x * q.y - 2 * q.w * q.z,
        2 * q.x * q.z + 2 * q.w * q.y,
       2 * q.x * q.y + 2 * q.w * q.z, 1 - 2 * q.x ^ 2 - 2 * q.z ^ 2,
        2 * q.y * q.z - 2 * q.w * q.x,
       2 * q.x * q.z - 2 * q.w * q.y, 2 * q.y * q.z + 2 * q.w * q.x,
        1 - 2 * q.x ^ 2 - 2 * q.y ^ 2⟩ := by
  simp only [quat2mat]
  rw [h]
  rw [if_neg (by norm_num [floatEps])]
  simp only [Mat3.mk.injEq]
  refine ⟨by ring, by ring, by ring, by ring, by ring, by ring, by ring, by ring, by ring⟩

/-- C7: for any translation and any unit-norm quaternion, the 4x4 transform
built by `make_T` composed with its rigid-body inverse `inv_T`, in either
order, is exactly the identity transform. -/
theorem transform_inverse_identity (t : Vec3) (q : Quat)
    (h : q.w ^ 2 + q.x ^ 2 + q.y ^ 2 + q.z ^ 2 = 1) :
    matMul4 (make_T t q) (inv_T (make_T t q)) = eye4 ∧
    matMul4 (inv_T (make_T t q)) (make_T t q) = eye4 := by
  have h' : q.w * q.w + q.x * q.x + q.y * q.y + q.z * q.z = 1 := by linear_combination h
  constructor
  · simp only [make_T, quat2mat_unit q h', matMul4, inv_T, eye4, Mat4.mk.injEq]
    refine ⟨?_, ?_, ?_, ?_, ?_, ?_, ?_, ?_, ?_, ?_, ?_, ?_, ?_, ?_, ?_, ?_⟩
    · linear_combination (4 * q.y ^ 2 + 4 * q.z ^ 2) * h
    · linear_combination (-4 * q.x * q.y) * h
    · linear_combination (-4 * q.x * q.z) * h
    · linear_combination ((-4 * q.y ^ 2 - 4 * q.z ^ 2) * t.x + 4 * q.x * q.y * t.y +
        4 * q.x * q.z * t.z) * h
    · linear_combination (-4 * q.x * q.y) * h
    · linear_combination (4 * q.x ^ 2 + 4 * q.z ^ 2) * h
    · linear_combination (-4 * q.y * q.z) * h
    · linear_combination (4 * q.x * q.y * t.x + (-4 * q.x ^ 2 - 4 * q.z ^ 2) * t.y +
        4 * q.y * q.z * t.z) * h
    · linear_combination (-4 * q.x * q.z) * h
    · linear_combination (-4 * q.y * q.z) * h
    · linear_combination (4 * q.x ^ 2 + 4 * q.y ^ 2) * h
    · linear_combination (4 * q.x * q.z * t.x + 4 * q.y * q.z * t.y +
        (-4 * q.x ^ 2 - 4 * q.y ^ 2) * t.z) * h
    · ring
    · ring
    · ring
    · ring
  · simp only [make_T, quat2mat_unit q h', matMul4, inv_T, eye4, Mat4.mk.injEq]
    refine ⟨?_, ?_, ?_, ?_, ?_, ?_, ?_, ?_, ?_, ?_, ?_, ?_, ?_, ?_, ?_, ?_⟩
    · linear_combination (4 * q.y ^ 2 + 4 * q.z ^ 2) * h
    · linear_combination (-4 * q.x * q.y) * h
    · linear_combination (-4 * q.x * q.z) * h
    · ring
    · linear_combination (-4 * q.x * q.y) * h
    · linear_combination (4 * q.x ^ 2 + 4 * q.z ^ 2) * h
    · linear_combination (-4 * q.y * q.z) * h
    · ring
    · linear_combination (-4 * q.x * q.z) * h
    · linear_combination (-4 * q.y * q.z) * h
    · linear_combination (4 * q.x ^ 2 + 4 * q.y ^ 2) * h
    · ring
    · ring
    · ring
    · ring
    · ring

/-- Witness for C7 at the identity quaternion and a nonzero translation. -/
theorem transform_inverse_identity_witness :
    ((1 : ℚ) ^ 2 + 0 ^ 2 + 0 ^ 2 + 0 ^ 2 = 1) ∧
    matMul4 (make_T ⟨1, 2, 3⟩ ⟨1, 0, 0, 0⟩) (inv_T (make_T ⟨1, 2, 3⟩ ⟨1, 0, 0, 0⟩)) = eye4 ∧
    matMul4 (inv_T (make_T ⟨1, 2, 3⟩ ⟨1, 0, 0, 0⟩)) (make_T ⟨1, 2, 3⟩ ⟨1, 0, 0, 0⟩) = eye4 :=
  ⟨by norm_num,
    (transform_inverse_identity ⟨1, 2, 3⟩ ⟨1, 0, 0, 0⟩ (by norm_num)).1,
    (transform_inverse_identity ⟨1, 2, 3⟩ ⟨1, 0, 0, 0⟩ (by norm_num)).2⟩

/-- C8: with the dry-run flag set, a whole run leaves the store, every
record's tables and every marker exactly as they were (even when it aborts
with a resolution error), and a record that is not skipped reports the counts
of files and annotations that would be touched. -/
theorem dry_run_no_mutation (args : Args) (hdry : args.dry_run = true) :
    (∀ (root : String) (bins : Bins) (recs : List RecordState),
      stateOfRun (runAll args root bins recs) = (bins, recs)) ∧
    (∀ (root : String) (bins : Bins) (r : RecordState) (b' : Bins) (r' : RecordState)
      (c : RecCounts),
      processRecord args root bins r = .ok (b', r', c) →
      b' = bins ∧ r' = r ∧
      (c.skipped = false →
        c = ⟨countNonEmptyRows (lidarEntriesOf r), 0, (r.anns.filter wfTrans).length,
             false, (lidarEntriesOf r).isEmpty⟩)) := by
  constructor
  · intro root bins recs
    exact runAll_dry args root hdry recs bins
  · intro root bins r b' r' c hok
    rcases processRecord_dry args root bins r hdry with hcase | hcase | ⟨e, hcase⟩
    · have heq := hok.symm.trans hcase
      obtain ⟨hb, hr, hc⟩ := by simpa only [Except.ok.injEq, Prod.mk.injEq] using heq.symm
      refine ⟨hb.symm, hr.symm, fun hskip => ?_⟩
      rw [← hc] at hskip
      exact absurd hskip (by simp [skipCounts])
    · have heq := hok.symm.trans hcase
      obtain ⟨hb, hr, hc⟩ := by simpa only [Except.ok.injEq, Prod.mk.injEq] using heq.symm
      exact ⟨hb.symm, hr.symm, fun _ => hc.symm⟩
    · rw [hok] at hcase
      exact absurd hcase (by simp)

/-- Witness for C8: a dry run over one record changes nothing. -/
theorem dry_run_no_mutation_witness :
    exArgsDry.dry_run = true ∧
    stateOfRun (runAll exArgsDry "/r" exBins [exRecord]) = (exBins, [exRecord]) :=
  ⟨rfl, (dry_run_no_mutation exArgsDry rfl).1 "/r" exBins [exRecord]⟩

/-- C2: a record whose marker for the current offset exists is skipped
entirely when the force flag is unset, and re-running the corrector with the
same offset over the state a successful run produced returns that state
unchanged (the second run is a no-op on every point file, annotation table
and marker). -/
theorem corrector_idempotent (args : Args) (root : String) (hforce : args.force = false) :
    (∀ (bins : Bins) (r : RecordState), markerName args.delta_z ∈ r.markers →
      processRecord args root bins r = .ok (bins, r, skipCounts)) ∧
    (∀ (bins b' : Bins) (recs recs' : List RecordState) (t : Totals),
      runAll args root bins recs = .ok (b', recs', t) →
      ∃ t₂, runAll args root b' recs' = .ok (b', recs', t₂)) := by
  constructor
  · intro bins r hmem
    simp only [processRecord]
    rw [if_pos ⟨hmem, hforce⟩]
  · intro bins b' recs recs' t hrun
    by_cases hdry : args.dry_run = true
    · have hstate := runAll_dry args root hdry recs bins
      rw [hrun] at hstate
      simp only [stateOfRun] at hstate
      obtain ⟨hb, hr⟩ := Prod.mk.inj hstate
      subst hb
      subst hr
      exact ⟨t, hrun⟩
    · exact runAll_again args root (by simpa using hdry) hforce recs bins b' recs' t hrun

/-- Witness for C2: one run corrects the record and writes the marker, the
second run returns the state unchanged. -/
theorem corrector_idempotent_witness :
    exArgs.force = false ∧
    runAll exArgs "/r" [] [exRecNoShift] = .ok ([], [exRecNoShiftDone], ⟨0, 0, 0⟩) ∧
    ∃ t₂, runAll exArgs "/r" [] [exRecNoShiftDone] = .ok ([], [exRecNoShiftDone], t₂) :=
  ⟨rfl, by decide,
    (corrector_idempotent exArgs "/r" rfl).2 [] [] [exRecNoShift] [exRecNoShiftDone]
      ⟨0, 0, 0⟩ (by decide)⟩

theorem shiftedContent_length (dim : ℕ) (dz : ℚ) :
    ∀ (arr : List ℚ) (j : ℕ), (shiftedContent dim dz j arr).length = arr.length := by
  intro arr
  induction arr with
  | nil => intro j; rfl
  | cons v rest ih => intro j; simp [shiftedContent, ih]

/-- C1 (amended): after a successful non-dry-run record correction in which
the identified entries resolve to pairwise-distinct files, every identified
point file is rewritten to its old contents with exactly the third-column
elements (flat index ≡ 2 mod the point width) increased by the offset, every
other element and the element count unchanged, and every annotation with a
well-formed 3-element translation has the vertical component of its persisted
translation increased by exactly the offset. -/
theorem offset_consistent_distinct (args : Args) (root : String) (bins : Bins)
    (r : RecordState) (b' : Bins) (r' : RecordState) (c : RecCounts)
    (hdry : args.dry_run = false)
    (hnd : (pathsOf root r.rdir bins (lidarEntriesOf r)).Nodup)
    (hok : processRecord args root bins r = .ok (b', r', c))
    (hskip : c.skipped = false) :
    (∀ sd ∈ lidarEntriesOf r, sd.filename ≠ "" →
      ∀ p, resolveBin bins root r.rdir (norm_rel_path sd.filename) = .ok p →
      ∀ arr, lookupBin bins p = some arr →
      lookupBin b' p = some (shiftedContent args.point_dim args.delta_z 0 arr) ∧
      (shiftedContent args.point_dim args.delta_z 0 arr).length = arr.length ∧
      ∀ k : ℕ, (shiftedContent args.point_dim args.delta_z 0 arr)[k]? =
        (arr[k]?).map (fun v => if k % args.point_dim = 2 then v + args.delta_z else v)) ∧
    (∀ (i : ℕ) (x y z : ℚ), r.anns[i]? = some (Ann.mk (some [x, y, z])) →
      r'.anns[i]? = some (Ann.mk (some [x, y, z + args.delta_z]))) := by
  simp only [processRecord] at hok
  by_cases h1 : markerName args.delta_z ∈ r.markers ∧ args.force = false
  · rw [if_pos h1] at hok
    obtain ⟨hb, hr, hc⟩ := by simpa only [Except.ok.injEq, Prod.mk.injEq] using hok
    rw [← hc] at hskip
    exact absurd hskip (by simp [skipCounts])
  · rw [if_neg h1] at hok
    by_cases h2 : r.hasVersionDir = false
    · rw [if_pos h2] at hok
      obtain ⟨hb, hr, hc⟩ := by simpa only [Except.ok.injEq, Prod.mk.injEq] using hok
      rw [← hc] at hskip
      exact absurd hskip (by simp [skipCounts])
    · rw [if_neg h2] at hok
      by_cases h3 : r.hasSampleData = false
      · rw [if_pos h3] at hok
        obtain ⟨hb, hr, hc⟩ := by simpa only [Except.ok.injEq, Prod.mk.injEq] using hok
        rw [← hc] at hskip
        exact absurd hskip (by simp [skipCounts])
      · rw [if_neg h3] at hok
        by_cases h4 : r.hasSampleAnn = false
        · rw [if_pos h4] at hok
          obtain ⟨hb, hr, hc⟩ := by simpa only [Except.ok.injEq, Prod.mk.injEq] using hok
          rw [← hc] at hskip
          exact absurd hskip (by simp [skipCounts])
        · rw [if_neg h4] at hok
          rcases hsl : shiftLoop args root r.rdir bins (lidarEntriesOf r) (0, 0) with
            ⟨e, bE⟩ | ⟨b₁, nb, np⟩ <;> rw [hsl] at hok
          · exact absurd hok (by simp)
          · simp only [hdry, Bool.false_eq_true, if_false] at hok
            obtain ⟨hb, hr, hc⟩ := by simpa only [Except.ok.injEq, Prod.mk.injEq] using hok
            subst hb
            constructor
            · intro sd hsd hf p hres arr harr
              have hmain := shiftLoop_shifts args root r.rdir hdry (lidarEntriesOf r)
                bins b₁ 0 0 nb np hsl hnd sd hsd hf p hres arr harr
              refine ⟨hmain.1, shiftedContent_length _ _ _ _, fun k => ?_⟩
              rw [shiftedContent_getElem]
              simp
            · intro i x y z hidx
              have hanns : r'.anns = r.anns.map (shiftAnn args.delta_z) := by
                rw [← hr]
              rw [hanns, List.getElem?_map, hidx]
              simp [shiftAnn]

/-- C1 counterexample: the claim as stated is false — two sample-data rows
that name the same file make the corrector shift that file twice, so its
third-column values rise by twice the offset, not by the offset. -/
theorem offset_claim_counterexample : ¬ claimOffsetConsistent := by
  intro hclaim
  have h := (hclaim exArgs "/r" exBins
      ⟨"/r/record_0001", [], true, true, true, [exRow, exRow], []⟩
      [("/r/record_0001/samples/lidar_top/f.bin", [5, 6, 7 + 1 + 1, 8])]
      ⟨"/r/record_0001", [".zshifted_+1.000"], true, true, true, [exRow, exRow], []⟩
      ⟨2, 2, 0, false, false⟩ rfl rfl rfl).1 exRow (by decide) (by decide)
      "/r/record_0001/samples/lidar_top/f.bin" (by decide) [5, 6, 7, 8] (by decide) 2
  have h3 : (some ((7 : ℚ) + 1 + 1)) = some ((7 : ℚ) + 1) := h
  simp only [Option.some.injEq] at h3
  norm_num at h3

/-- Witness for the amended C1: a single lidar entry over a 4-wide file. -/
theorem offset_consistent_witness :
    processRecord exArgs "/r" exBins exRecord =
      .ok ([("/r/record_0001/samples/lidar_top/f.bin", [5, 6, 7 + 1, 8])],
        ⟨"/r/record_0001", [".zshifted_+1.000"], true, true, true, [exRow],
          [⟨some [1, 2, 3 + 1]⟩]⟩,
        ⟨1, 1, 1, false, false⟩) ∧
    (pathsOf "/r" exRecord.rdir exBins (lidarEntriesOf exRecord)).Nodup ∧
    lookupBin [("/r/record_0001/samples/lidar_top/f.bin", [5, 6, 7 + 1, 8])]
        "/r/record_0001/samples/lidar_top/f.bin" = some [5, 6, 7 + 1, 8] ∧
    (⟨"/r/record_0001", [".zshifted_+1.000"], true, true, true, [exRow],
        [⟨some [1, 2, 3 + 1]⟩]⟩ : RecordState).anns[0]? = some (Ann.mk (some [1, 2, 3 + 1])) :=
  ⟨rfl, by decide,
    ((offset_consistent_distinct exArgs "/r" exBins exRecord
        [("/r/record_0001/samples/lidar_top/f.bin", [5, 6, 7 + 1, 8])]
        ⟨"/r/record_0001", [".zshifted_+1.000"], true, true, true, [exRow],
          [⟨some [1, 2, 3 + 1]⟩]⟩
        ⟨1, 1, 1, false, false⟩ rfl (by decide) rfl rfl).1 exRow (by decide) (by decide)
      "/r/record_0001/samples/lidar_top/f.bin" (by decide) [5, 6, 7, 8] (by decide)).1,
    (offset_consistent_distinct exArgs "/r" exBins exRecord
        [("/r/record_0001/samples/lidar_top/f.bin", [5, 6, 7 + 1, 8])]
        ⟨"/r/record_0001", [".zshifted_+1.000"], true, true, true, [exRow],
          [⟨some [1, 2, 3 + 1]⟩]⟩
        ⟨1, 1, 1, false, false⟩ rfl (by decide) rfl rfl).2 0 1 2 3 (by decide)⟩
